import Mathlib

/-!
Verification of the recommendation-evaluation pipeline
(`lkdemo/metrics.py`, `split-data.py`, `compute-metrics.py`).

Scores and the patience parameter are modelled over `ℚ`; item ids, user
(rec-list) ids, truth ids and ranks over `ℕ`.  Data frames become lists of
records; the bulk metric's grouped output becomes a partial map from rec-list
id to score (`Option ℚ`), absent groups mapping to `none`.
-/

/-- The default patience constant `PATIENCE = 0.8` from `lkdemo/metrics.py`. -/
def PATIENCE : ℚ := 4 / 5

/-- Embedding of `discount(ranks, patience) = patience ** ranks`
from `lkdemo/metrics.py`. -/
def discount (rank : ℕ) (patience : ℚ) : ℚ := patience ^ rank

/-- Embedding of `test_weight(n, patience)` from `lkdemo/metrics.py`. -/
def test_weight (n : ℕ) (patience : ℚ) : ℚ :=
  (1 - patience ^ n) / (n * (1 - patience))

/-- Embedding of `rbp_max(ngood, patience)` from `lkdemo/metrics.py`:
`np.sum(patience ** np.arange(1, ngood+1)) * (1 - patience)`. -/
def rbp_max (ngood : ℕ) (patience : ℚ) : ℚ :=
  (((List.range' 1 ngood).map (fun r => patience ^ r)).sum) * (1 - patience)

/-- One row of a single-user recommendation frame: the `rank` and `item`
columns used by the scalar `rbp`. -/
structure RecEntry where
  rank : ℕ
  item : ℕ
deriving DecidableEq, Repr

/-- The scalar `rbp`'s positional truncation step
`recs = recs.iloc[:k] if k is not None else recs`. -/
def cutK (recs : List RecEntry) (k : Option ℕ) : List RecEntry :=
  match k with
  | some kk => recs.take kk
  | none => recs

/-- Embedding of the scalar `rbp(recs, truth, k, patience)` from
`lkdemo/metrics.py`.  `recs.iloc[:k]` is positional truncation (`List.take`);
`truth` is the truth frame's item index (`len(truth)` is its length);
`recs['item'].isin(truth.index)` selects rows whose item occurs in the truth
index; the result is `np.sum(disc) * (1 - patience)`, or `None` when the
truth frame is empty. -/
def rbp (recs : List RecEntry) (truth : List ℕ) (k : Option ℕ) (patience : ℚ) :
    Option ℚ :=
  if truth.length = 0 then none
  else
    let good := (cutK recs k).filter (fun r => r.item ∈ truth)
    some (((good.map (fun r => discount r.rank patience)).sum) * (1 - patience))

/-- One row of the multi-run recommendation frame handled by `_bulk_rbp`:
the `LKRecID`, `LKTruthID`, `rank` and `item` columns. -/
structure BulkRec where
  recId : ℕ
  truthId : ℕ
  rank : ℕ
  item : ℕ
deriving DecidableEq, Repr

/-- The rows of `recs` that survive `_bulk_rbp`'s truncation
(`recs[recs['rank'] <= k]`) and its inner join with the truth frame on
`(LKTruthID, item)`. -/
def bulkGood (recs : List BulkRec) (truth : List (ℕ × ℕ)) (k : Option ℕ) :
    List BulkRec :=
  let recs2 := match k with
    | some kk => recs.filter (fun (r : BulkRec) => r.rank ≤ kk)
    | none => recs
  recs2.filter (fun (r : BulkRec) => (r.truthId, r.item) ∈ truth)

/-- Embedding of `_bulk_rbp(recs, truth, k, patience)` from
`lkdemo/metrics.py`, read off at one rec-list id: the grouped series
`good.groupby('LKRecID')['rbp_disc'].sum() * (1 - patience)` has an entry for
a rec-list id exactly when the id owns at least one joined row, so looking a
rec-list id up in it yields `none` when its group is empty. -/
def _bulk_rbp (recs : List BulkRec) (truth : List (ℕ × ℕ)) (k : Option ℕ)
    (patience : ℚ) (recId : ℕ) : Option ℚ :=
  let grp := (bulkGood recs truth k).filter (fun r => r.recId = recId)
  if grp.isEmpty then none
  else some (((grp.map (fun r => discount r.rank patience)).sum) * (1 - patience))

/-- The single-user recommendation slice of a multi-run frame: the rows
belonging to one rec-list id, with their `rank` and `item` columns. -/
def userRecs (recs : List BulkRec) (u : ℕ) : List RecEntry :=
  (recs.filter (fun r => r.recId = u)).map (fun r => ⟨r.rank, r.item⟩)

/-- The single-user truth slice of a multi-run truth frame: the items of the
rows belonging to one truth id. -/
def userTruth (truth : List (ℕ × ℕ)) (t : ℕ) : List ℕ :=
  (truth.filter (fun x => x.1 = t)).map (fun x => x.2)

/-- Projection of a multi-run recommendation row onto the single-user
columns used by the scalar metric. -/
def toEntry (r : BulkRec) : RecEntry := ⟨r.rank, r.item⟩

/-- Decides that a recommendation list carries consecutive ranks
`n, n+1, n+2, …` from its first entry on; `rankedFrom 1 recs` states the
data-model invariant that ranks are the positions `1, 2, 3, …`. -/
def rankedFrom : ℕ → List RecEntry → Bool
  | _, [] => true
  | n, r :: rs => r.rank = n && rankedFrom (n + 1) rs

/-- Modelled from the spec's formula text, for comparison with `rbp`:
truncate to the first `k` ranked entries when `k` is given, keep the entries
whose item is in the truth set, and return
`(1 - patience) * Σ patience ^ rank` over them. -/
def rbpSpecFormula (recs : List RecEntry) (truth : List ℕ) (k : Option ℕ)
    (patience : ℚ) : ℚ :=
  let retained := match k with
    | some kk => recs.take kk
    | none => recs
  (1 - patience) *
    ((retained.filter (fun r => r.item ∈ truth)).map
      (fun r => patience ^ r.rank)).sum

/-- Python truthiness of an optional integer flag (`if partitions:`,
`if reps:`, `if nusers:` in `split-data.py`): `None` and `0` are falsy. -/
def truthy (o : Option ℕ) : Bool := o.getD 0 != 0

/-- Python `max(reps, 1)` as it appears in `split-data.py` when `reps` is an
optional integer: comparing `None` with an `int` raises `TypeError`, so the
`None` case is an error. -/
def pymax1 : Option ℕ → Except String ℕ
  | none => .error "TypeError: comparison of NoneType and int in max(reps, 1)"
  | some r => .ok (max r 1)

/-- Outcome of a successful `split-data.py` run: the warnings logged and the
test-set artifact file names written, in order. -/
structure SplitResult where
  warnings : List String
  artifacts : List String
deriving DecidableEq, Repr

/-- Embedding of `main` from `split-data.py`, projected onto its observable
control flow: flag validation, branch selection, warnings, and the sequence
of artifact names written.  `ps`, `nu`, `reps` are the parsed `-p`, `-u`,
`-R` flags (`none` when absent).  The external lenskit generators
`xf.partition_users(ratings, p, samp)` and `xf.sample_users(ratings, p, u,
samp)` yield exactly `p` train-test pairs (their documented interface), so
the partition branch's `enumerate(parts, 1)` loop writes
`test-1.parquet … test-p.parquet`; the sampling branch writes one file per
iteration of `range(max(reps, 1))`, named `test-<i>.parquet` when `reps` is
truthy and `test.parquet` otherwise. -/
def splitMain (ps nu reps : Option ℕ) : Except String SplitResult :=
  if ps = none ∧ nu = none then
    .error "exit 2: must specify at least 1 of -p and -u"
  else if truthy ps then
    let p := ps.getD 0
    let warns := if truthy reps then ["reps and partitions incompatible"] else []
    .ok ⟨warns, (List.range' 1 p).map (fun i => s!"test-{i}.parquet")⟩
  else
    match pymax1 reps with
    | .error e => .error e
    | .ok n =>
      .ok ⟨[], (List.range n).map
        (fun i => if truthy reps then s!"test-{i}.parquet" else "test.parquet")⟩

/-- Embedding of the joblib `Parallel` collection step in
`compute-metrics.py`'s `main`: each run file's `eval_run` task either
produces a per-run score table or raises; any raised error propagates out of
the parallel loop and aborts the aggregation.  Dispatch order is immaterial
to this property, so the tasks are folded sequentially. -/
def collectRuns {α : Type} : List (Except String α) → Except String (List α)
  | [] => .ok []
  | t :: ts =>
    match t with
    | .error e => .error e
    | .ok v =>
      match collectRuns ts with
      | .error e => .error e
      | .ok vs => .ok (v :: vs)

/-- Embedding of `main` from `compute-metrics.py`, projected onto the files
it writes: the per-run evaluation tasks run first, and only when every task
succeeded are the results concatenated and the single score artifact `outf`
written; a task failure propagates and nothing is written. -/
def computeMetricsMain {α : Type} (tasks : List (Except String α))
    (outf : String) : Except String (List String) :=
  match collectRuns tasks with
  | .error e => .error e
  | .ok _ => .ok [outf]

/-- The files actually persisted by an aggregation outcome: none on error. -/
def writtenFiles : Except String (List String) → List String
  | .ok l => l
  | .error _ => []

theorem mem_userTruth (truth : List (ℕ × ℕ)) (t a : ℕ) :
    a ∈ userTruth truth t ↔ (t, a) ∈ truth := by
  simp only [userTruth, List.mem_map, List.mem_filter]
  constructor
  · rintro ⟨⟨x1, x2⟩, ⟨hx, ht⟩, ha⟩
    simp only [decide_eq_true_eq] at ht
    cases ht
    cases ha
    exact hx
  · intro h
    exact ⟨(t, a), ⟨h, by simp⟩, rfl⟩

theorem rankedFrom_lower (l : List RecEntry) :
    ∀ n, rankedFrom n l = true → ∀ e ∈ l, n ≤ e.rank := by
  induction l with
  | nil =>
    intro n _ e he
    cases he
  | cons r rs ih =>
    intro n h e he
    simp only [rankedFrom, Bool.and_eq_true, decide_eq_true_eq] at h
    cases he with
    | head => omega
    | tail _ hmem => exact le_trans (by omega) (ih (n + 1) h.2 e hmem)

theorem rankedFrom_take_eq_filter (l : List RecEntry) :
    ∀ n kk, rankedFrom n l = true →
      l.take (kk + 1 - n) = l.filter (fun e => e.rank ≤ kk) := by
  induction l with
  | nil => simp
  | cons r rs ih =>
    intro n kk h
    simp only [rankedFrom, Bool.and_eq_true, decide_eq_true_eq] at h
    by_cases hnk : n ≤ kk
    · have hpos : kk + 1 - n = (kk + 1 - (n + 1)) + 1 := by omega
      rw [hpos, List.take_succ_cons, List.filter_cons_of_pos (by simp [h.1]; omega),
        ih (n + 1) kk h.2]
    · have hzero : kk + 1 - n = 0 := by omega
      rw [hzero, List.take_zero, List.filter_cons_of_neg (by simp [h.1]; omega)]
      symm
      apply List.filter_eq_nil_iff.mpr
      intro e he
      have := rankedFrom_lower rs (n + 1) h.2 e he
      simp only [decide_eq_true_eq]
      omega

theorem ranked_take_eq_filter (l : List RecEntry) (kk : ℕ)
    (h : rankedFrom 1 l = true) :
    l.take kk = l.filter (fun e => e.rank ≤ kk) := by
  have := rankedFrom_take_eq_filter l 1 kk h
  simpa using this

theorem userRecs_eq (recs : List BulkRec) (u : ℕ) :
    userRecs recs u
      = (recs.filter (fun (r : BulkRec) => r.recId = u)).map toEntry := rfl

theorem bulk_grp_eq (recs : List BulkRec) (truth : List (ℕ × ℕ)) (k : Option ℕ)
    (u t : ℕ) (hconsist : ∀ r ∈ recs, r.recId = u → r.truthId = t)
    (hranks : rankedFrom 1 (userRecs recs u) = true) :
    ((bulkGood recs truth k).filter (fun (r : BulkRec) => r.recId = u)).map toEntry
      = (cutK (userRecs recs u) k).filter
          (fun (e : RecEntry) => e.item ∈ userTruth truth t) := by
  cases k with
  | none =>
    rw [cutK, userRecs_eq, List.filter_map]
    congr 1
    rw [bulkGood]
    rw [List.filter_filter, List.filter_filter]
    apply List.filter_congr
    intro r hr
    by_cases hru : r.recId = u
    · have ht' : r.truthId = t := hconsist r hr hru
      simp [hru, ht', mem_userTruth, toEntry, Function.comp]
    · simp [hru, Function.comp]
  | some kk =>
    rw [cutK, ranked_take_eq_filter _ kk hranks, userRecs_eq, List.filter_map,
      List.filter_map]
    congr 1
    rw [bulkGood]
    simp only [List.filter_filter]
    apply List.filter_congr
    intro r hr
    by_cases hru : r.recId = u
    · have ht' : r.truthId = t := hconsist r hr hru
      simp [hru, ht', toEntry, Function.comp, mem_userTruth, Bool.and_comm,
        Bool.and_assoc, Bool.and_left_comm]
    · simp [hru, Function.comp]

theorem bulkGood_mem {recs : List BulkRec} {truth : List (ℕ × ℕ)}
    {k : Option ℕ} {r : BulkRec} (h : r ∈ bulkGood recs truth k) :
    r ∈ recs ∧ (r.truthId, r.item) ∈ truth := by
  cases k with
  | none =>
    simp only [bulkGood] at h
    have h2 := List.mem_filter.mp h
    exact ⟨h2.1, by simpa using h2.2⟩
  | some kk =>
    simp only [bulkGood] at h
    have h2 := List.mem_filter.mp h
    have h3 := List.mem_filter.mp h2.1
    exact ⟨h3.1, by simpa using h2.2⟩

theorem collectRuns_error {α : Type} {tasks : List (Except String α)} {e : String}
    (h : Except.error e ∈ tasks) : ∃ e2, collectRuns tasks = Except.error e2 := by
  induction tasks with
  | nil => cases h
  | cons t ts ih =>
    cases h with
    | head => exact ⟨e, rfl⟩
    | tail _ hmem =>
      cases t with
      | error e3 => exact ⟨e3, rfl⟩
      | ok v =>
        obtain ⟨e2, h2⟩ := ih hmem
        exact ⟨e2, by simp [collectRuns, h2]⟩

theorem collectRuns_ok {α : Type} {tasks : List (Except String α)} {l : List α}
    (h : collectRuns tasks = Except.ok l) : ∀ t ∈ tasks, ∃ v, t = Except.ok v := by
  induction tasks generalizing l with
  | nil =>
    intro t ht
    cases ht
  | cons t ts ih =>
    intro t2 ht2
    cases t with
    | error e => simp [collectRuns] at h
    | ok v =>
      cases ht2 with
      | head => exact ⟨v, rfl⟩
      | tail _ hmem =>
        cases hcr : collectRuns ts with
        | error e => simp [collectRuns, hcr] at h
        | ok vs => exact ih hcr t2 hmem

theorem take_filter_map_sum_mono (l : List RecEntry) (q : RecEntry → Bool)
    (f : RecEntry → ℚ) (hf : ∀ r, 0 ≤ f r) (k1 k2 : ℕ) (hk : k1 ≤ k2) :
    (((l.take k1).filter q).map f).sum ≤ (((l.take k2).filter q).map f).sum := by
  have h0 : l.take k1 = (l.take k2).take k1 := by
    rw [List.take_take, min_eq_left hk]
  have hsub : List.Sublist (((l.take k1).filter q).map f)
      (((l.take k2).filter q).map f) := by
    rw [h0]
    exact ((List.take_sublist _ _).filter _).map _
  refine List.Sublist.sum_le_sum hsub ?_
  intro a ha
  obtain ⟨r, _, rfl⟩ := List.mem_map.mp ha
  exact hf r

theorem cutK_sublist (recs : List RecEntry) (k : Option ℕ) :
    List.Sublist (cutK recs k) recs := by
  cases k with
  | none => exact List.Sublist.refl recs
  | some kk => exact List.take_sublist kk recs

theorem sum_pow_sorted_le (p : ℚ) (hp0 : 0 ≤ p) (hp1 : p ≤ 1) (l : List ℕ) :
    ∀ n, l.Pairwise (· < ·) → (∀ x ∈ l, n < x) →
      (l.map (fun r => p ^ r)).sum
        ≤ ((List.range' (n + 1) l.length).map (fun r => p ^ r)).sum := by
  induction l with
  | nil => simp
  | cons a as ih =>
    intro n hpw hlb
    rw [List.map_cons, List.sum_cons, List.length_cons, List.range'_succ,
      List.map_cons, List.sum_cons]
    rcases List.pairwise_cons.mp hpw with ⟨hhead, htail⟩
    apply add_le_add
    · exact pow_le_pow_of_le_one hp0 hp1 (hlb a (List.mem_cons_self a as))
    · refine ih (n + 1) htail (fun x hx => ?_)
      have h1 := hlb a (List.mem_cons_self a as)
      have h2 := hhead x hx
      omega

theorem sum_pow_range'_le (p : ℚ) (hp0 : 0 ≤ p) (s : ℕ) (m M : ℕ) (h : m ≤ M) :
    ((List.range' s m).map (fun r => p ^ r)).sum
      ≤ ((List.range' s M).map (fun r => p ^ r)).sum := by
  have happ : List.range' s m ++ List.range' (s + m) (M - m) = List.range' s M := by
    have h2 := List.range'_append s m (M - m) 1
    simp only [one_mul] at h2
    rw [Nat.sub_add_cancel h] at h2
    exact h2
  rw [← happ, List.map_append, List.sum_append]
  apply le_add_of_nonneg_right
  apply List.sum_nonneg
  intro x hx
  obtain ⟨r, _, rfl⟩ := List.mem_map.mp hx
  exact pow_nonneg hp0 r

/-- C1 (amended): for a user all of whose recommendation rows carry that
user's truth id, whose slice ranks are the consecutive positions 1, 2, 3, …,
and who is present in the bulk result (at least one recommended item within
the cutoff lies in the truth set), the bulk RBP value equals the scalar RBP
on the user's recommendation slice and truth slice. -/
theorem bulk_scalar_equiv (recs : List BulkRec) (truth : List (ℕ × ℕ))
    (k : Option ℕ) (patience : ℚ) (u t : ℕ)
    (hconsist : ∀ r ∈ recs, r.recId = u → r.truthId = t)
    (hranks : rankedFrom 1 (userRecs recs u) = true) (s : ℚ)
    (hbulk : _bulk_rbp recs truth k patience u = some s) :
    rbp (userRecs recs u) (userTruth truth t) k patience = some s := by
  simp only [_bulk_rbp] at hbulk
  by_cases hemp :
      ((bulkGood recs truth k).filter (fun (r : BulkRec) => r.recId = u)).isEmpty
  · rw [if_pos hemp] at hbulk
    cases hbulk
  · rw [if_neg hemp] at hbulk
    have hsum := Option.some.inj hbulk
    have hne :
        (bulkGood recs truth k).filter (fun (r : BulkRec) => r.recId = u) ≠ [] := by
      intro h
      rw [h] at hemp
      exact hemp rfl
    obtain ⟨r, hrmem⟩ := List.exists_mem_of_ne_nil _ hne
    have hrf := List.mem_filter.mp hrmem
    have hru : r.recId = u := by simpa using hrf.2
    obtain ⟨hrin, hrtm⟩ := bulkGood_mem hrf.1
    have htid : r.truthId = t := hconsist r hrin hru
    have hitem : r.item ∈ userTruth truth t :=
      (mem_userTruth truth t r.item).mpr (htid ▸ hrtm)
    have hutne : (userTruth truth t).length ≠ 0 := by
      intro h0
      rw [List.length_eq_zero] at h0
      exact List.ne_nil_of_mem hitem h0
    have hge := bulk_grp_eq recs truth k u t hconsist hranks
    simp only [rbp]
    rw [if_neg hutne, ← hge, List.map_map, ← hsum]
    rfl

theorem bulk_scalar_equiv_witness :
    rbp (userRecs [⟨0, 0, 1, 5⟩] 0) (userTruth [(0, 5)] 0) (some 1) PATIENCE
      = some (4 / 25) :=
  bulk_scalar_equiv [⟨0, 0, 1, 5⟩] [(0, 5)] (some 1) PATIENCE 0 0 (by decide)
    (by decide) (4 / 25)
    (by norm_num [_bulk_rbp, bulkGood, discount, PATIENCE])

/-- C1, counterexample: a user with a nonempty truth set none of whose items
is recommended scores `0` under the scalar form yet is absent from the bulk
form's grouped result, so the unrestricted bulk-vs-scalar equivalence fails. -/
theorem bulk_scalar_equiv_cex :
    _bulk_rbp [⟨0, 0, 1, 5⟩] [(0, 7)] none PATIENCE 0 = none ∧
      rbp (userRecs [⟨0, 0, 1, 5⟩] 0) (userTruth [(0, 7)] 0) none PATIENCE
        = some 0 ∧
      _bulk_rbp [⟨0, 0, 1, 5⟩] [(0, 7)] none PATIENCE 0
        ≠ rbp (userRecs [⟨0, 0, 1, 5⟩] 0) (userTruth [(0, 7)] 0) none PATIENCE := by
  have h1 : _bulk_rbp [⟨0, 0, 1, 5⟩] [(0, 7)] none PATIENCE 0 = none := by
    norm_num [_bulk_rbp, bulkGood]
  have h2 : rbp (userRecs [⟨0, 0, 1, 5⟩] 0) (userTruth [(0, 7)] 0) none PATIENCE
      = some 0 := by
    norm_num [rbp, cutK, userRecs, userTruth, discount]
  refine ⟨h1, h2, ?_⟩
  rw [h1, h2]
  intro h
  cases h

/-- C3: if any one run evaluation task raises an error, the aggregator's
outcome is not a success and no score artifact is written. -/
theorem computeMetrics_all_or_nothing {α : Type} (tasks : List (Except String α))
    (outf : String) (e : String) (he : Except.error e ∈ tasks) :
    writtenFiles (computeMetricsMain tasks outf) = [] ∧
      (computeMetricsMain tasks outf).isOk = false := by
  obtain ⟨e2, h2⟩ := collectRuns_error he
  constructor
  · simp [computeMetricsMain, writtenFiles, h2]
  · simp [computeMetricsMain, Except.isOk, Except.toBool, h2]

theorem computeMetrics_all_or_nothing_witness :
    writtenFiles (computeMetricsMain [Except.ok (1 : ℕ), Except.error "boom"]
        "runs/ml-algo-scores.parquet") = [] ∧
      (computeMetricsMain [Except.ok (1 : ℕ), Except.error "boom"]
        "runs/ml-algo-scores.parquet").isOk = false :=
  computeMetrics_all_or_nothing _ _ "boom" (by simp)

/-- C4: for every recommendation list, cutoff and patience, an empty truth
set makes the scalar RBP return the missing marker, regardless of the
recommendation content. -/
theorem rbp_empty_truth_missing (recs : List RecEntry) (truth : List ℕ)
    (k : Option ℕ) (patience : ℚ) (h : truth.length = 0) :
    rbp recs truth k patience = none := by
  simp [rbp, h]

theorem rbp_empty_truth_missing_witness :
    rbp [⟨1, 10⟩, ⟨2, 20⟩] [] (some 5) PATIENCE = none :=
  rbp_empty_truth_missing _ _ _ _ rfl

/-- C5: with a nonempty truth set, the scalar RBP returns exactly the spec's
formula: first-k truncation, then `(1 - patience)` times the sum of
`patience ^ rank` over the retained entries whose item is in the truth set. -/
theorem rbp_eq_spec_formula (recs : List RecEntry) (truth : List ℕ)
    (k : Option ℕ) (patience : ℚ) (ht : truth.length ≠ 0) :
    rbp recs truth k patience = some (rbpSpecFormula recs truth k patience) := by
  have ht2 : truth ≠ [] := by
    intro h
    exact ht (by simp [h])
  cases k <;> simp [rbp, rbpSpecFormula, cutK, discount, ht2, mul_comm]

theorem rbp_eq_spec_formula_witness :
    rbp [⟨1, 10⟩, ⟨2, 20⟩, ⟨3, 30⟩] [10, 30] (some 2) PATIENCE
      = some (rbpSpecFormula [⟨1, 10⟩, ⟨2, 20⟩, ⟨3, 30⟩] [10, 30] (some 2)
          PATIENCE) :=
  rbp_eq_spec_formula _ _ _ _ (by decide)

/-- C6: the discount function returns `patience ^ rank`, equals `1` at rank
`0`, and for patience in `(0,1)` is strictly decreasing in rank. -/
theorem discount_strict_anti (patience : ℚ) (h0 : 0 < patience)
    (h1 : patience < 1) (r1 r2 : ℕ) (h : r1 < r2) :
    discount 0 patience = 1 ∧ discount r1 patience = patience ^ r1 ∧
      discount r2 patience = patience ^ r2 ∧
      discount r2 patience < discount r1 patience := by
  refine ⟨by simp [discount], rfl, rfl, ?_⟩
  exact pow_lt_pow_right_of_lt_one₀ h0 h1 h

theorem discount_strict_anti_witness :
    discount 0 PATIENCE = 1 ∧ discount 2 PATIENCE = PATIENCE ^ 2 ∧
      discount 5 PATIENCE = PATIENCE ^ 5 ∧
      discount 5 PATIENCE < discount 2 PATIENCE :=
  discount_strict_anti PATIENCE (by norm_num [PATIENCE]) (by norm_num [PATIENCE])
    2 5 (by norm_num)

/-- C7: with a nonempty truth set and patience in `(0,1)`, the scalar RBP
score at a smaller cutoff is at most the score at a larger cutoff, all other
arguments equal. -/
theorem rbp_cutoff_mono (recs : List RecEntry) (truth : List ℕ) (k1 k2 : ℕ)
    (patience : ℚ) (ht : truth.length ≠ 0) (hk : k1 < k2) (hp0 : 0 < patience)
    (hp1 : patience < 1) (s1 s2 : ℚ)
    (h1 : rbp recs truth (some k1) patience = some s1)
    (h2 : rbp recs truth (some k2) patience = some s2) : s1 ≤ s2 := by
  simp only [rbp, cutK, if_neg ht, Option.some.injEq] at h1 h2
  subst h1
  subst h2
  refine mul_le_mul_of_nonneg_right ?_ (by linarith)
  exact take_filter_map_sum_mono recs _ _ (fun r => pow_nonneg hp0.le _) k1 k2 hk.le

theorem rbp_cutoff_mono_witness : ((4 : ℚ) / 25) ≤ 36 / 125 :=
  rbp_cutoff_mono [⟨1, 10⟩, ⟨2, 20⟩] [10, 20] 1 2 PATIENCE (by decide)
    (by decide) (by norm_num [PATIENCE]) (by norm_num [PATIENCE]) (4 / 25) (36 / 125)
    (by norm_num [rbp, cutK, discount, PATIENCE])
    (by norm_num [rbp, cutK, discount, PATIENCE])

/-- C8: under the data-model invariants — positive, strictly increasing
ranks and no duplicate items — and a nonempty truth set, every scalar RBP
score is at most `rbp_max` of the truth-set size, for patience in `(0,1)`. -/
theorem rbp_le_rbp_max (recs : List RecEntry) (truth : List ℕ) (k : Option ℕ)
    (patience : ℚ) (hp0 : 0 < patience) (hp1 : patience < 1)
    (hsorted : recs.Pairwise (fun a b => a.rank < b.rank))
    (hpos : ∀ r ∈ recs, 1 ≤ r.rank)
    (hnodup : recs.Pairwise (fun a b => a.item ≠ b.item))
    (htruth : truth.length ≠ 0) (s : ℚ)
    (hs : rbp recs truth k patience = some s) :
    s ≤ rbp_max truth.length patience := by
  simp only [rbp, if_neg htruth, Option.some.injEq] at hs
  subst hs
  rw [rbp_max]
  apply mul_le_mul_of_nonneg_right ?_ (by linarith)
  set good := (cutK recs k).filter (fun r => decide (r.item ∈ truth))
    with hgooddef
  have hsubgood : List.Sublist good recs :=
    List.Sublist.trans (List.filter_sublist _) (cutK_sublist recs k)
  have hranks : (good.map (fun r => r.rank)).Pairwise (· < ·) :=
    List.pairwise_map.mpr (hsorted.sublist hsubgood)
  have hlb : ∀ x ∈ good.map (fun r => r.rank), 0 < x := by
    intro x hx
    obtain ⟨r, hr, rfl⟩ := List.mem_map.mp hx
    exact hpos r (hsubgood.subset hr)
  have hstep1 :
      ((good.map (fun r => r.rank)).map (fun r => patience ^ r)).sum
        ≤ ((List.range' 1 good.length).map (fun r => patience ^ r)).sum := by
    have hb := sum_pow_sorted_le patience hp0.le hp1.le
      (good.map (fun r => r.rank)) 0 hranks (by simpa using hlb)
    simpa [List.length_map] using hb
  have hlen : good.length ≤ truth.length := by
    have hitems : ∀ a ∈ good.map (fun r => r.item), a ∈ truth := by
      intro a ha
      obtain ⟨r, hr, rfl⟩ := List.mem_map.mp ha
      have := (List.mem_filter.mp hr).2
      simpa using this
    have hnd : (good.map (fun r => r.item)).Nodup :=
      List.pairwise_map.mpr (hnodup.sublist hsubgood)
    calc good.length = (good.map (fun r => r.item)).length :=
          (List.length_map _ _).symm
      _ = (good.map (fun r => r.item)).toFinset.card :=
          (List.toFinset_card_of_nodup hnd).symm
      _ ≤ truth.toFinset.card := by
          apply Finset.card_le_card
          intro a ha
          simp only [List.mem_toFinset] at ha ⊢
          exact hitems a ha
      _ ≤ truth.length := List.toFinset_card_le truth
  have hstep2 := sum_pow_range'_le patience hp0.le 1 good.length truth.length hlen
  have hmaps : (good.map (fun r => discount r.rank patience)).sum
      = ((good.map (fun r => r.rank)).map (fun r => patience ^ r)).sum := by
    rw [List.map_map]
    rfl
  rw [hmaps]
  exact le_trans hstep1 hstep2

theorem rbp_le_rbp_max_witness : (4 : ℚ) / 25 ≤ rbp_max 2 PATIENCE :=
  rbp_le_rbp_max [⟨1, 10⟩] [10, 20] none PATIENCE (by norm_num [PATIENCE])
    (by norm_num [PATIENCE]) (by decide) (by decide) (by decide) (by decide)
    (4 / 25) (by norm_num [rbp, cutK, discount, PATIENCE])

/-- C2: in repeated-sampling mode with no repetition count, `main` evaluates
`max(reps, 1)` with `reps = None` and raises `TypeError` before writing any
artifact, instead of performing the single split the spec describes; with a
repetition count it does write the 0-based indexed artifacts. -/
theorem splitMain_no_reps_typeerror :
    splitMain none (some 100) none
        = Except.error "TypeError: comparison of NoneType and int in max(reps, 1)" ∧
      splitMain none (some 100) (some 2)
        = Except.ok ⟨[], ["test-0.parquet", "test-1.parquet"]⟩ :=
  ⟨rfl, rfl⟩

/-- C9: with both a partition count and a repetition count supplied, the
splitter proceeds in partition mode, records the non-fatal incompatibility
warning, writes the 1-based fold artifacts, and the result does not depend
on the repetition count. -/
theorem splitMain_partition_wins (P R : ℕ) (nu : Option ℕ) (hP : 0 < P)
    (hR : 0 < R) :
    splitMain (some P) nu (some R)
      = Except.ok ⟨["reps and partitions incompatible"],
          (List.range' 1 P).map (fun i => s!"test-{i}.parquet")⟩ := by
  have h1 : ¬((some P : Option ℕ) = none ∧ nu = none) := by simp
  have h2 : truthy (some P) = true := by
    simp [truthy]
    omega
  have h3 : truthy (some R) = true := by
    simp [truthy]
    omega
  simp [splitMain, h1, h2, h3]

theorem splitMain_partition_wins_witness :
    splitMain (some 2) none (some 3)
      = Except.ok ⟨["reps and partitions incompatible"],
          (List.range' 1 2).map (fun i => s!"test-{i}.parquet")⟩ :=
  splitMain_partition_wins 2 3 none (by decide) (by decide)

/-- C10: with a nonempty truth set but no retained recommendation whose item
is in it, scalar RBP returns the defined score `0`, not the missing marker,
so a computed zero and an undefined result stay distinguishable. -/
theorem rbp_no_hits_zero (recs : List RecEntry) (truth : List ℕ) (k : Option ℕ)
    (patience : ℚ) (ht : truth.length ≠ 0)
    (hmiss : ∀ r ∈ cutK recs k, r.item ∉ truth) :
    rbp recs truth k patience = some 0 := by
  have hfil : (cutK recs k).filter (fun r => r.item ∈ truth) = [] := by
    apply List.filter_eq_nil_iff.mpr
    intro a ha
    simpa using hmiss a ha
  simp [rbp, ht, hfil]

theorem rbp_no_hits_zero_witness :
    rbp [⟨1, 10⟩] [99] none PATIENCE = some 0 :=
  rbp_no_hits_zero _ _ _ _ (by decide) (by decide)
